import Mathlib

/-!
Verification development for the `htmlparse` package: a shallow embedding of
its single-pass recursive tree builder (`Parse`/`parser.parse`), lexical
scanner (`skipSpace`, `nextIdent`, `nextValue`), tag classifier
(`categorize`) and bump-allocating node arena (`arena.newNode`).

Modelling conventions:
* A byte is a `Nat` (all relevant byte classes are ASCII, for which the Go
  code's rune-wise `bytes.IndexFunc`/`bytes.TrimLeftFunc` scans coincide
  with byte-wise scans, since every predicate used only accepts ASCII runes).
* The mutable cursor `p.text` becomes explicit state passing: each scanning
  function takes the remaining bytes and returns the rest.
* Go runtime slice panics (slicing with a negative index after a failed
  `bytes.Index*` search, or indexing an empty slice) are modelled as the
  distinct outcome `PErr.sliceBound`; they are not error returns.
* The external HTML reference decoder (`html.UnescapeString`) is an opaque
  parameter `decode` threaded through the builder.
* `fmt.Errorf`-produced errors are modelled as a structured error type
  carrying the same data the Go format string interpolates.
* The Go loop in `parser.parse`/`parser.parseRaw` is expressed as fuel-indexed
  recursion; the entry points supply `length + 1` fuel, which dominates the
  loop/descent count since every iteration consumes input.
* On error the Go code leaves already-appended children attached to the tree
  and aborts; the functional model returns only the error value.
-/

/-- The five node kinds carried by `*html.Node` that this parser produces. -/
inductive NodeType where
  | document
  | element
  | text
  | comment
  | doctype
deriving DecidableEq

/-- Tree node: kind, `Data` bytes, `DataAtom` (canonical interned name or
`none` for unrecognized tags), ordered attribute pairs, ordered children. -/
inductive HNode where
  | mk : NodeType → List Nat → Option (List Nat) → List (List Nat × List Nat) → List HNode → HNode

def HNode.type : HNode → NodeType
  | .mk t _ _ _ _ => t

def HNode.data : HNode → List Nat
  | .mk _ d _ _ _ => d

def HNode.dataAtom : HNode → Option (List Nat)
  | .mk _ _ a _ _ => a

def HNode.attrList : HNode → List (List Nat × List Nat)
  | .mk _ _ _ xs _ => xs

def HNode.children : HNode → List HNode
  | .mk _ _ _ _ c => c

/-- Replace the children of a node (models attaching a parsed body). -/
def HNode.withChildren : HNode → List HNode → HNode
  | .mk t d a xs _, c => .mk t d a xs c

/-- Fault outcomes of the parser.  Constructors other than `outOfFuel` and
`sliceBound` correspond one-to-one to the Go `errors.New`/`fmt.Errorf` sites;
`sliceBound` models a Go runtime slice-bounds panic (not an error return);
`outOfFuel` is the fuel-exhaustion artifact of the embedding and is never
reached from the entry points on their supplied fuel. -/
inductive PErr where
  | outOfFuel
  | sliceBound
  | eofOpen
  | eofComment
  | unclosed (tag : List Nat)
  | unexpectedOpen (b : Nat)
  | unexpectedAttrName (b : Nat) (tag : List Nat)
  | unexpectedSlash (tag : List Nat)
  | unexpectedClose (b : Nat)
  | unexpectedCloseGt (b : Nat) (tag : List Nat)
deriving DecidableEq

/-- ASCII byte constants used by the scanner. -/
def ltB : Nat := 60
def gtB : Nat := 62
def slashB : Nat := 47
def bangB : Nat := 33
def dashB : Nat := 45
def eqB : Nat := 61
def squoteB : Nat := 39
def dquoteB : Nat := 34

/-- Bytes of an ASCII string literal. -/
def strBytes (s : String) : List Nat := s.toList.map Char.toNat

/-- `whitespaceF`: space, tab, newline, form feed, carriage return. -/
def whitespaceF (b : Nat) : Bool :=
  b = 32 || b = 9 || b = 10 || b = 12 || b = 13

/-- `identInvalidF`: bytes that terminate an identifier scan. -/
def identInvalidF (b : Nat) : Bool :=
  whitespaceF b || b = 0 || b = dquoteB || b = squoteB || b = eqB || b = slashB || b = gtB

/-- `unquotInvalidF`: bytes that terminate an unquoted attribute value scan. -/
def unquotInvalidF (b : Nat) : Bool :=
  whitespaceF b || b = 0 || b = dquoteB || b = squoteB || b = eqB || b = ltB || b = gtB

/-- `skipSpace`: drop the maximal leading whitespace run
(`bytes.TrimLeftFunc text whitespaceF`). -/
def skipSpace (text : List Nat) : List Nat := text.dropWhile whitespaceF

/-- `bytes.IndexFunc`: index of the first byte satisfying `f`, if any. -/
def idxFun (f : Nat → Bool) : List Nat → Option Nat
  | [] => none
  | b :: rest => if f b then some 0 else (idxFun f rest).map (· + 1)

/-- `bytes.IndexByte`: index of the first occurrence of byte `b`, if any. -/
def idxByte (b : Nat) : List Nat → Option Nat
  | [] => none
  | c :: rest => if c = b then some 0 else (idxByte b rest).map (· + 1)

/-- `bytes.Index`: index of the first occurrence of the subslice `pat`. -/
def idxSub (pat : List Nat) : List Nat → Option Nat
  | [] => if pat = [] then some 0 else none
  | b :: rest =>
    if pat.isPrefixOf (b :: rest) then some 0 else (idxSub pat rest).map (· + 1)

/-- `asciiLower`: fold ASCII uppercase bytes to lowercase (`ch | 0x20`). -/
def asciiLower (text : List Nat) : List Nat :=
  text.map (fun b => if 65 ≤ b && b ≤ 90 then b + 32 else b)

/-- Modelled from the spec: the external tag-identity table
(`golang.org/x/net/html/atom`, an external collaborator not in this
repository).  The spec describes it as `lookup(lowercased_ascii_bytes) ->
Option<TagIdentity>` with a `canonical_spelling` that round-trips the
looked-up lowercase bytes, so a tag identity is represented by its canonical
name.  The table is restricted to the names this development mentions; each
listed name is an interned atom of the real table, and each unlisted name
used concretely below (`foo`, `doctype`, `[cdata[hello`) is not. -/
def knownTags : List (List Nat) :=
  ["a", "area", "b", "base", "body", "br", "col", "div", "embed", "head",
   "hr", "html", "img", "input", "link", "meta", "param", "script", "source",
   "span", "style", "template", "textarea", "title", "track", "wbr"].map strBytes

/-- Modelled from the spec: `atom.Lookup` on lowercased bytes; returns the
canonical identity for known names, `none` otherwise. -/
def atomLookup (s : List Nat) : Option (List Nat) :=
  if s ∈ knownTags then some s else none

/-- `parser.nextIdent`: scan a maximal run of identifier bytes.  Returns the
(case-folded) name, its tag identity, and the rest.  A zero-length run yields
an empty name (syntax-fault signal to the caller).  When no terminating byte
exists, Go computes `bytes.IndexFunc = -1` and then slices `text[:-1]`,
a runtime panic, modelled as `sliceBound`. -/
def nextIdent (text : List Nat) : Except PErr (List Nat × Option (List Nat) × List Nat) :=
  match idxFun identInvalidF text with
  | none => .error .sliceBound
  | some idx =>
    let identB := text.take idx
    let rest := text.drop idx
    if identB = [] then .ok ([], none, rest)
    else
      let low := asciiLower identB
      .ok (low, atomLookup low, rest)

/-- `parser.nextValue`: a `'`/`"`-quoted value up to the matching delimiter
(delimiter consumed, not included), else a maximal run of non-`unquotInvalidF`
bytes.  Indexing an empty slice, or slicing after a failed delimiter search,
is a Go runtime panic (`sliceBound`). -/
def nextValue (text : List Nat) : Except PErr (List Nat × List Nat) :=
  match text with
  | [] => .error .sliceBound
  | b :: rest =>
    if b = squoteB || b = dquoteB then
      match idxByte b rest with
      | none => .error .sliceBound
      | some idx => .ok (rest.take idx, rest.drop (idx + 1))
    else
      match idxFun unquotInvalidF (b :: rest) with
      | none => .error .sliceBound
      | some idx => .ok ((b :: rest).take idx, (b :: rest).drop idx)

/-- The five content-handling categories (Go `category`). -/
inductive category where
  | catVoid
  | catTemplate
  | catRaw
  | catEscapableRaw
  | catForeign
  | catNormal
deriving DecidableEq

/-- `categorize`: the fixed total table from tag identity to category. -/
def categorize (a : Option (List Nat)) : category :=
  if a = some (strBytes "area") || a = some (strBytes "base") || a = some (strBytes "br") ||
     a = some (strBytes "col") || a = some (strBytes "embed") || a = some (strBytes "hr") ||
     a = some (strBytes "img") || a = some (strBytes "input") || a = some (strBytes "link") ||
     a = some (strBytes "meta") || a = some (strBytes "param") || a = some (strBytes "source") ||
     a = some (strBytes "track") || a = some (strBytes "wbr") then
    category.catVoid
  else if a = some (strBytes "template") then category.catTemplate
  else if a = some (strBytes "script") || a = some (strBytes "style") then category.catRaw
  else if a = some (strBytes "textarea") || a = some (strBytes "title") then category.catEscapableRaw
  else category.catNormal

/-- How `parser.parse` handles an opened, non-self-closing element's body:
the `switch categorize(node.DataAtom)` statement.  `catVoid` parses no body;
`catRaw`/`catEscapableRaw` enter raw-text mode; `catNormal`, `catTemplate`
and `catForeign` share the one recursive-descent case. -/
inductive BodyMode where
  | noBody
  | rawText (escapable : Bool)
  | recurse
deriving DecidableEq

/-- The category dispatch of `parser.parse`, as a function of its own. -/
def bodyDispatch : category → BodyMode
  | .catVoid => .noBody
  | .catRaw => .rawText false
  | .catEscapableRaw => .rawText true
  | .catNormal | .catTemplate | .catForeign => .recurse

/-- `parser.textNode`: if `text` is nonempty, one Text child whose payload is
the decoded text; otherwise no child at all. -/
def textNode (decode : List Nat → List Nat) (text : List Nat) : List HNode :=
  if 0 < text.length then [HNode.mk NodeType.text (decode text) none [] []] else []

/-- `parser.parseEndTag`: `text` starts at the `<` of a `</name …>` candidate
and `start` is the expected element's `(Data, DataAtom)`, or `none` when the
caller is at the document root.  Returns `(true, rest)` on a name-identity
match followed by `>`, `(false, rest)` on a name mismatch (not an error), and
an error for an empty name or a byte other than `>` after a matched name. -/
def parseEndTag (start : Option (List Nat × Option (List Nat))) (text : List Nat) :
    Except PErr (Bool × List Nat) :=
  match nextIdent (text.drop 2) with
  | .error e => .error e
  | .ok (elemS, elemA, rest) =>
    if elemS = [] then
      match rest with
      | [] => .error .sliceBound
      | b :: _ => .error (.unexpectedClose b)
    else
      match start with
      | none => .ok (false, rest)
      | some (startData, startAtom) =>
        if elemA ≠ startAtom ∨ (elemA = none ∧ elemS ≠ startData) then .ok (false, rest)
        else
          match skipSpace rest with
          | [] => .error .sliceBound
          | g :: rest2 =>
            if g ≠ gtB then .error (.unexpectedCloseGt g elemS)
            else .ok (true, rest2)

/-- The attribute loop of `parser.parseStartTag` (`for p.text[0] != '/' &&
p.text[0] != '>'`), plus the trailing self-closing check.  `tagName` is the
already-scanned element name used in error messages.  Terminates on `/`
(self-closing: the next non-space byte must be `>`) or `>`; each iteration
scans an attribute name, an optional `= value`, and surrounding whitespace. -/
def parseAttrs (tagName : List Nat) :
    Nat → List (List Nat × List Nat) → List Nat →
    Except PErr (List (List Nat × List Nat) × Bool × List Nat)
  | 0, _, _ => .error .outOfFuel
  | fuel + 1, attrAcc, text =>
    match text with
    | [] => .error .sliceBound
    | b :: rest0 =>
      if b = slashB then
        match skipSpace rest0 with
        | [] => .error .sliceBound
        | g :: rest1 =>
          if g ≠ gtB then .error (.unexpectedSlash tagName)
          else .ok (attrAcc, true, rest1)
      else if b = gtB then .ok (attrAcc, false, rest0)
      else
        match nextIdent (b :: rest0) with
        | .error e => .error e
        | .ok (name, _, rest) =>
          if name = [] then .error (.unexpectedAttrName b tagName)
          else
            match skipSpace rest with
            | [] => .error .sliceBound
            | e0 :: rest2 =>
              if e0 = eqB then
                match nextValue (skipSpace rest2) with
                | .error e => .error e
                | .ok (val, rest3) =>
                  parseAttrs tagName fuel (attrAcc ++ [(name, val)]) (skipSpace (skipSpace rest3))
              else
                parseAttrs tagName fuel (attrAcc ++ [(name, [])]) (skipSpace (e0 :: rest2))

/-- `parser.parseStartTag`: `text` starts at `<`.  Scans the tag name (empty
name is fatal), then attributes until `/` or `>`.  The produced Element node
carries the scanned name, identity and attributes, and no children. -/
def parseStartTag (text : List Nat) : Except PErr (HNode × Bool × List Nat) :=
  match nextIdent (skipSpace (text.drop 1)) with
  | .error e => .error e
  | .ok (elemS, elemA, rest) =>
    if elemS = [] then
      match rest with
      | [] => .error .sliceBound
      | b :: _ => .error (.unexpectedOpen b)
    else
      match parseAttrs elemS ((skipSpace rest).length + 1) [] (skipSpace rest) with
      | .error e => .error e
      | .ok (attrAcc, selfClosing, rest2) =>
        .ok (HNode.mk NodeType.element elemS elemA attrAcc [], selfClosing, rest2)

/-- The `'!'` case of `parser.parse` (markup declaration), as a function of
its own; `text` is the input immediately after `<!`.  `--` introduces a
well-formed comment terminated by the first `-->` (interior stored verbatim);
an identifier reading `doctype` (case-insensitively, via `nextIdent`'s
folding) introduces a Doctype running to the next `>`; anything else is a
malformed comment running to the next `>`.  A failed `bytes.Index` search
followed by slicing is a Go runtime panic (`sliceBound`). -/
def parseBang (text : List Nat) : Except PErr (HNode × List Nat) :=
  if text = [] then .error .eofComment
  else if ([dashB, dashB] : List Nat).isPrefixOf text then
    match idxSub [dashB, dashB, gtB] (text.drop 2) with
    | none => .error .sliceBound
    | some idx =>
      .ok (HNode.mk NodeType.comment ((text.drop 2).take idx) none [] [],
           (text.drop 2).drop (idx + 3))
  else
    match nextIdent text with
    | .error e => .error e
    | .ok (ident, _, rest) =>
      if ident = strBytes "doctype" then
        match idxByte gtB (skipSpace rest) with
        | none => .error .sliceBound
        | some idx =>
          .ok (HNode.mk NodeType.doctype ((skipSpace rest).take idx) none [] [],
               (skipSpace rest).drop (idx + 1))
      else
        match idxByte gtB text with
        | none => .error .sliceBound
        | some idx =>
          .ok (HNode.mk NodeType.comment (text.take idx) none [] [], text.drop (idx + 1))

/-- The loop of `parser.parseRaw`: accumulate literal bytes into `buf`; at
each `<`, if the following byte is `/`, attempt a close-tag match against the
current element `(parentData, parentAtom)`; on success emit the buffer as the
single Text child (decoded when `escapable`, verbatim and only if nonempty
otherwise); on mismatch restore the cursor (`oldText`) and fall through to
appending the `<` and the following byte to the buffer. -/
def parseRawLoop (decode : List Nat → List Nat) (parentData : List Nat)
    (parentAtom : Option (List Nat)) (escapable : Bool) :
    Nat → List Nat → List Nat → Except PErr (List HNode × List Nat)
  | 0, _, _ => .error .outOfFuel
  | fuel + 1, buf, text =>
    match idxByte ltB text with
    | none => .error (.unclosed parentData)
    | some idx =>
      let buf2 := buf ++ text.take idx
      match text.drop idx with
      | [] => .error .eofOpen
      | [_] => .error .eofOpen
      | b0 :: b1 :: r2 =>
        if b1 = slashB then
          match parseEndTag (some (parentData, parentAtom)) (b0 :: b1 :: r2) with
          | .error e => .error e
          | .ok (true, rest) =>
            if escapable then .ok (textNode decode buf2, rest)
            else if 0 < buf2.length then
              .ok ([HNode.mk NodeType.text buf2 none [] []], rest)
            else .ok ([], rest)
          | .ok (false, _) =>
            parseRawLoop decode parentData parentAtom escapable fuel (buf2 ++ [b0, b1]) r2
        else
          parseRawLoop decode parentData parentAtom escapable fuel (buf2 ++ [b0, b1]) r2

/-- `parser.parseRaw`: enter raw-text mode with an empty buffer.  The fuel
`length + 1` dominates the loop count (every iteration consumes ≥ 2 bytes). -/
def parseRaw (decode : List Nat → List Nat) (parentData : List Nat)
    (parentAtom : Option (List Nat)) (escapable : Bool) (text : List Nat) :
    Except PErr (List HNode × List Nat) :=
  parseRawLoop decode parentData parentAtom escapable (text.length + 1) [] text

/-- Prefix already-produced children onto the continuation of the loop. -/
def contWith (pre : List HNode) (res : Except PErr (List HNode × List Nat)) :
    Except PErr (List HNode × List Nat) :=
  match res with
  | .error e => .error e
  | .ok (kids, rest) => .ok (pre ++ kids, rest)

/-- `parser.parse`: one invocation of the tree builder with parent identity
`(parentData, parentAtom)` and root flag.  Returns the ordered children
appended to the parent together with the unconsumed rest.  Each iteration
finds the next `<` (none: terminal — trailing text at the root, otherwise an
unclosed-element error), emits the preceding chunk as a Text child, and
dispatches on the byte after `<`: `/` closes (matching required unless in a
raw-mode backtrack; at the root any close tag is a fault), `!` is a markup
declaration, anything else opens an element whose body is parsed per its
category.  The Go `for` loop is the tail recursion at equal parent/root. -/
def parse (decode : List Nat → List Nat) (parentData : List Nat)
    (parentAtom : Option (List Nat)) (root : Bool) :
    Nat → List Nat → Except PErr (List HNode × List Nat)
  | 0, _ => .error .outOfFuel
  | fuel + 1, text =>
    match idxByte ltB text with
    | none =>
      if root then .ok (textNode decode text, [])
      else .error (.unclosed parentData)
    | some idx =>
      let chunk := text.take idx
      match text.drop idx with
      | [] => .error .eofOpen
      | [_] => .error .eofOpen
      | b0 :: b1 :: r2 =>
        if b1 = slashB then
          match parseEndTag (if root then none else some (parentData, parentAtom))
              (b0 :: b1 :: r2) with
          | .error e => .error e
          | .ok (true, rest) => .ok (textNode decode chunk, rest)
          | .ok (false, _) => .error (.unclosed parentData)
        else if b1 = bangB then
          match parseBang r2 with
          | .error e => .error e
          | .ok (node, rest) =>
            contWith (textNode decode chunk ++ [node])
              (parse decode parentData parentAtom root fuel rest)
        else
          match parseStartTag (b0 :: b1 :: r2) with
          | .error e => .error e
          | .ok (node, selfClosing, rest) =>
            if selfClosing then
              contWith (textNode decode chunk ++ [node])
                (parse decode parentData parentAtom root fuel rest)
            else
              match bodyDispatch (categorize node.dataAtom) with
              | .noBody =>
                contWith (textNode decode chunk ++ [node])
                  (parse decode parentData parentAtom root fuel rest)
              | .rawText esc =>
                match parseRaw decode node.data node.dataAtom esc rest with
                | .error e => .error e
                | .ok (kids, rest2) =>
                  contWith (textNode decode chunk ++ [node.withChildren kids])
                    (parse decode parentData parentAtom root fuel rest2)
              | .recurse =>
                match parse decode node.data node.dataAtom false fuel rest with
                | .error e => .error e
                | .ok (kids, rest2) =>
                  contWith (textNode decode chunk ++ [node.withChildren kids])
                    (parse decode parentData parentAtom root fuel rest2)

/-- `Parse(parent, text)`: the entry point; the caller-supplied root has
`Data = ""` and is parsed with `root = true`.  Returns the root's children.
Fuel `length + 1` dominates the loop/descent count, since every recursive
`parse` call strictly consumes input. -/
def Parse (decode : List Nat → List Nat) (text : List Nat) : Except PErr (List HNode) :=
  match parse decode [] none true (text.length + 1) text with
  | .error e => .error e
  | .ok (kids, _) => .ok kids

/-- `parser.parse` again, with the `parent.AppendChild` effects made explicit
on every path: the first component is the list of children this invocation
has appended to its parent by the time it returns, whether it returns
successfully (second component `.ok rest`) or aborts with a fault
(`.error e`) — in Go, children appended before a fault stay attached.  The
attach points mirror the source exactly: the chunk before each `<` is
appended before the `len(p.text) < 2` check and before the dispatch, so it
is attached on every fault after it; in the `/` branch only the chunk is
attached; in the `!` branch the Comment/Doctype node is appended only after
a successful scan; an opened element is appended before its body is parsed,
so when the body faults the element stays attached carrying the children its
own recursive invocation had appended (none for a faulted raw-text body:
`parseRaw` only attaches its single Text child on a successful close);
`parseStartTag` faults append nothing beyond the chunk (the element node is
discarded before `AppendChild`).  `parse_eq_parseA` proves the success/fault
verdict and the success-path children agree with `parse`. -/
def parseA (decode : List Nat → List Nat) (parentData : List Nat)
    (parentAtom : Option (List Nat)) (root : Bool) :
    Nat → List Nat → List HNode × Except PErr (List Nat)
  | 0, _ => ([], .error .outOfFuel)
  | fuel + 1, text =>
    match idxByte ltB text with
    | none =>
      if root then (textNode decode text, .ok [])
      else ([], .error (.unclosed parentData))
    | some idx =>
      let chunk := textNode decode (text.take idx)
      match text.drop idx with
      | [] => (chunk, .error .eofOpen)
      | [_] => (chunk, .error .eofOpen)
      | b0 :: b1 :: r2 =>
        if b1 = slashB then
          match parseEndTag (if root then none else some (parentData, parentAtom))
              (b0 :: b1 :: r2) with
          | .error e => (chunk, .error e)
          | .ok (true, rest) => (chunk, .ok rest)
          | .ok (false, _) => (chunk, .error (.unclosed parentData))
        else if b1 = bangB then
          match parseBang r2 with
          | .error e => (chunk, .error e)
          | .ok (node, rest) =>
            let next := parseA decode parentData parentAtom root fuel rest
            (chunk ++ node :: next.1, next.2)
        else
          match parseStartTag (b0 :: b1 :: r2) with
          | .error e => (chunk, .error e)
          | .ok (node, selfClosing, rest) =>
            if selfClosing then
              let next := parseA decode parentData parentAtom root fuel rest
              (chunk ++ node :: next.1, next.2)
            else
              match bodyDispatch (categorize node.dataAtom) with
              | .noBody =>
                let next := parseA decode parentData parentAtom root fuel rest
                (chunk ++ node :: next.1, next.2)
              | .rawText esc =>
                match parseRaw decode node.data node.dataAtom esc rest with
                | .error e => (chunk ++ [node], .error e)
                | .ok (rkids, rest2) =>
                  let next := parseA decode parentData parentAtom root fuel rest2
                  (chunk ++ node.withChildren rkids :: next.1, next.2)
              | .recurse =>
                let sub := parseA decode node.data node.dataAtom false fuel rest
                match sub.2 with
                | .error e => (chunk ++ [node.withChildren sub.1], .error e)
                | .ok rest2 =>
                  let next := parseA decode parentData parentAtom root fuel rest2
                  (chunk ++ node.withChildren sub.1 :: next.1, next.2)

/-- `Parse` with the `AppendChild` effects made explicit: the children
attached under the caller's root by the time `Parse` returns, on success and
on fault alike, together with the verdict. -/
def ParseA (decode : List Nat → List Nat) (text : List Nat) :
    List HNode × Except PErr (List Nat) :=
  parseA decode [] none true (text.length + 1) text

/-- The error-only view of an attachment-tracking result: keep the children
on success, forget them on a fault.  `parse` computes exactly this view of
`parseA` (theorem `parse_eq_parseA`). -/
def dropOnErr (p : List HNode × Except PErr (List Nat)) :
    Except PErr (List HNode × List Nat) :=
  match p with
  | (_, .error e) => .error e
  | (kids, .ok rest) => .ok (kids, rest)

/-- How many nodes `alloc.go` allocates per block. -/
def arenaSize : Nat := 64

/-- The `arena` of `alloc.go` (`type arena []html.Node`): a suffix view of
the most recently `make`d block.  The model tracks which block that is
(`blocks` counts `make` calls) and how many slots remain (`len(*a)`); a slot
address is the pair (block number, index of the slot within its block),
abstracting the machine address `&(*a)[0]`, which is distinct for distinct
pairs because each `make` yields fresh storage. -/
structure arena where
  blocks : Nat
  len : Nat
deriving DecidableEq

/-- A freshly constructed arena: the nil slice (`len(*a) = 0`, no block). -/
def arena.fresh : arena := ⟨0, 0⟩

/-- `arena.newNode`: if the current block is exhausted, `make` a new block of
`arenaSize` pre-zeroed slots; serve `&(*a)[0]` and advance `*a = (*a)[1:]`.
Returns the served slot's address and the new arena state. -/
def arena.newNode : arena → (Nat × Nat) × arena
  | ⟨b, 0⟩ => ((b + 1, 0), ⟨b + 1, arenaSize - 1⟩)
  | ⟨b, n + 1⟩ => ((b, arenaSize - (n + 1)), ⟨b, n⟩)

/-- Address of the `k`-th (0-based) `newNode` call starting from state `a`. -/
def arena.nthAddr (a : arena) : Nat → Nat × Nat
  | 0 => a.newNode.1
  | k + 1 => arena.nthAddr a.newNode.2 k

/-- Linearization of a slot address, used to order the allocation stream. -/
def arenaAddrIdx (p : Nat × Nat) : Nat := p.1 * arenaSize + p.2

mutual

/-- Every Text node in this subtree carries a nonempty payload. -/
def noEmptyText : HNode → Bool
  | .mk ty d _ _ kids =>
    (match ty with
     | NodeType.text => !d.isEmpty
     | _ => true) && noEmptyTextL kids

/-- `noEmptyText` over every node of a list. -/
def noEmptyTextL : List HNode → Bool
  | [] => true
  | c :: cs => noEmptyText c && noEmptyTextL cs

end

theorem noEmptyTextL_append (xs ys : List HNode) :
    noEmptyTextL (xs ++ ys) = (noEmptyTextL xs && noEmptyTextL ys) := by
  induction xs with
  | nil => simp [noEmptyTextL]
  | cons c cs ih => simp [noEmptyTextL, ih, Bool.and_assoc]

theorem textNode_noEmpty (decode : List Nat → List Nat)
    (hdec : ∀ s : List Nat, s ≠ [] → decode s ≠ []) (t : List Nat) :
    noEmptyTextL (textNode decode t) = true := by
  unfold textNode
  split
  · next hlen =>
    have ht : t ≠ [] := by
      intro h
      subst h
      simp at hlen
    have : decode t ≠ [] := hdec t ht
    simp [noEmptyTextL, noEmptyText, this]
  · simp [noEmptyTextL]

theorem parseStartTag_shape (text : List Nat) (n : HNode) (sc : Bool) (r : List Nat)
    (h : parseStartTag text = .ok (n, sc, r)) :
    ∃ s a xs, n = HNode.mk NodeType.element s a xs [] := by
  unfold parseStartTag at h
  rcases hni : nextIdent (skipSpace (text.drop 1)) with e | ⟨s, a, rest⟩ <;>
    simp only [hni] at h
  · exact absurd h (by simp)
  · split at h
    · split at h <;> simp_all
    · rcases hpa : parseAttrs s ((skipSpace rest).length + 1) [] (skipSpace rest) with
        e | ⟨xs, sc2, r2⟩ <;> simp only [hpa] at h
      · exact absurd h (by simp)
      · simp only [Except.ok.injEq, Prod.mk.injEq] at h
        exact ⟨s, a, xs, h.1.symm⟩

theorem parseStartTag_noEmpty (text : List Nat) (n : HNode) (sc : Bool) (r : List Nat)
    (h : parseStartTag text = .ok (n, sc, r)) : noEmptyText n = true := by
  obtain ⟨s, a, xs, rfl⟩ := parseStartTag_shape text n sc r h
  simp [noEmptyText, noEmptyTextL]

theorem parseStartTag_withChildren_noEmpty (text : List Nat) (n : HNode) (sc : Bool)
    (r : List Nat) (kids : List HNode) (h : parseStartTag text = .ok (n, sc, r))
    (hk : noEmptyTextL kids = true) : noEmptyText (n.withChildren kids) = true := by
  obtain ⟨s, a, xs, rfl⟩ := parseStartTag_shape text n sc r h
  simp [HNode.withChildren, noEmptyText, hk]

theorem parseBang_noEmpty (t : List Nat) (n : HNode) (r : List Nat)
    (h : parseBang t = .ok (n, r)) : noEmptyText n = true := by
  unfold parseBang at h
  split at h
  · simp at h
  · split at h
    · split at h <;> simp_all [noEmptyText, noEmptyTextL]
      rcases h with ⟨hn, _⟩
      simp [← hn, noEmptyText, noEmptyTextL]
    · rcases hni : nextIdent t with e | ⟨s, a, rest⟩ <;> simp only [hni] at h
      · exact absurd h (by simp)
      · split at h <;> split at h <;> simp_all <;>
          rcases h with ⟨hn, _⟩ <;> simp [← hn, noEmptyText, noEmptyTextL]

theorem parseRawLoop_noEmpty (decode : List Nat → List Nat)
    (hdec : ∀ s : List Nat, s ≠ [] → decode s ≠ []) (pd : List Nat)
    (pa : Option (List Nat)) (esc : Bool) :
    ∀ fuel buf text kids rest,
      parseRawLoop decode pd pa esc fuel buf text = .ok (kids, rest) →
      noEmptyTextL kids = true := by
  intro fuel
  induction fuel with
  | zero =>
    intro buf text kids rest h
    simp [parseRawLoop] at h
  | succ fuel ih =>
    intro buf text kids rest h
    simp only [parseRawLoop] at h
    rcases hidx : idxByte ltB text with _ | idx <;> simp only [hidx] at h
    · exact absurd h (by simp)
    · rcases hdrop : text.drop idx with _ | ⟨b0, _ | ⟨b1, r2⟩⟩ <;>
        simp only [hdrop] at h
      · exact absurd h (by simp)
      · exact absurd h (by simp)
      · by_cases hb : b1 = slashB
        · simp only [if_pos hb] at h
          rcases hend : parseEndTag (some (pd, pa)) (b0 :: b1 :: r2) with e | ⟨ok, rest2⟩ <;>
            simp only [hend] at h
          · exact absurd h (by simp)
          · rcases ok with _ | _
            · exact ih _ _ _ _ h
            · rcases esc with _ | _
              · simp only [Bool.false_eq_true, if_false] at h
                split at h
                · next hlen =>
                    simp only [Except.ok.injEq, Prod.mk.injEq] at h
                    rcases h with ⟨hk, _⟩
                    have hb2 : ¬(buf ++ text.take idx).isEmpty = true := by
                      simp only [List.isEmpty_iff]
                      intro hc
                      rw [hc] at hlen
                      simp at hlen
                    simp [← hk, noEmptyTextL, noEmptyText, hb2]
                · simp only [Except.ok.injEq, Prod.mk.injEq] at h
                  rcases h with ⟨hk, _⟩
                  simp [← hk, noEmptyTextL]
              · simp only [if_true] at h
                simp only [Except.ok.injEq, Prod.mk.injEq] at h
                rcases h with ⟨hk, _⟩
                rw [← hk]
                exact textNode_noEmpty decode hdec _
        · simp only [if_neg hb] at h
          exact ih _ _ _ _ h

set_option maxHeartbeats 2000000 in
theorem parse_noEmpty (decode : List Nat → List Nat)
    (hdec : ∀ s : List Nat, s ≠ [] → decode s ≠ []) :
    ∀ fuel pd pa root text kids rest,
      parse decode pd pa root fuel text = .ok (kids, rest) →
      noEmptyTextL kids = true := by
  intro fuel
  induction fuel with
  | zero =>
    intro pd pa root text kids rest h
    simp [parse] at h
  | succ fuel ih =>
    intro pd pa root text kids rest h
    simp only [parse] at h
    rcases hidx : idxByte ltB text with _ | idx <;> simp only [hidx] at h
    · rcases root with _ | _
      · simp at h
      · simp only [if_true] at h
        simp only [Except.ok.injEq, Prod.mk.injEq] at h
        rcases h with ⟨hk, _⟩
        rw [← hk]
        exact textNode_noEmpty decode hdec _
    · rcases hdrop : text.drop idx with _ | ⟨b0, _ | ⟨b1, r2⟩⟩ <;>
        simp only [hdrop] at h
      · exact absurd h (by simp)
      · exact absurd h (by simp)
      · by_cases hb1 : b1 = slashB
        · simp only [if_pos hb1] at h
          rcases hend : parseEndTag (if root then none else some (pd, pa))
              (b0 :: b1 :: r2) with e | ⟨ok, rest2⟩ <;> simp only [hend] at h
          · exact absurd h (by simp)
          · rcases ok with _ | _
            · exact absurd h (by simp)
            · simp only [Except.ok.injEq, Prod.mk.injEq] at h
              rcases h with ⟨hk, _⟩
              rw [← hk]
              exact textNode_noEmpty decode hdec _
        · by_cases hb2 : b1 = bangB
          · simp only [if_neg hb1, if_pos hb2] at h
            rcases hbang : parseBang r2 with e | ⟨node, rest2⟩ <;> simp only [hbang] at h
            · exact absurd h (by simp)
            · simp only [contWith] at h
              rcases hrec : parse decode pd pa root fuel rest2 with e | ⟨kids2, r3⟩ <;>
                simp only [hrec] at h
              · exact absurd h (by simp)
              · simp only [Except.ok.injEq, Prod.mk.injEq] at h
                rcases h with ⟨hk, _⟩
                rw [← hk]
                simp only [noEmptyTextL_append, noEmptyTextL,
                  textNode_noEmpty decode hdec, parseBang_noEmpty _ _ _ hbang,
                  ih _ _ _ _ _ _ hrec, Bool.and_self]
          · simp only [if_neg hb1, if_neg hb2] at h
            rcases hst : parseStartTag (b0 :: b1 :: r2) with e | ⟨node, sc, rest2⟩ <;>
              simp only [hst] at h
            · exact absurd h (by simp)
            · have hnode : noEmptyText node = true := parseStartTag_noEmpty _ _ _ _ hst
              rcases sc with _ | _
              · simp only [Bool.false_eq_true, if_false] at h
                rcases hbd : bodyDispatch (categorize node.dataAtom) with _ | esc | _ <;>
                  simp only [hbd] at h
                · simp only [contWith] at h
                  rcases hrec : parse decode pd pa root fuel rest2 with e | ⟨kids2, r3⟩ <;>
                    simp only [hrec] at h
                  · exact absurd h (by simp)
                  · simp only [Except.ok.injEq, Prod.mk.injEq] at h
                    rcases h with ⟨hk, _⟩
                    rw [← hk]
                    simp only [noEmptyTextL_append, noEmptyTextL,
                      textNode_noEmpty decode hdec, hnode, ih _ _ _ _ _ _ hrec,
                      Bool.and_self]
                · rcases hraw : parseRaw decode node.data node.dataAtom esc rest2 with
                    e | ⟨kidsR, rest3⟩ <;> simp only [hraw] at h
                  · exact absurd h (by simp)
                  · simp only [contWith] at h
                    rcases hrec : parse decode pd pa root fuel rest3 with e | ⟨kids2, r4⟩ <;>
                      simp only [hrec] at h
                    · exact absurd h (by simp)
                    · simp only [Except.ok.injEq, Prod.mk.injEq] at h
                      rcases h with ⟨hk, _⟩
                      rw [← hk]
                      have hR : noEmptyTextL kidsR = true := by
                        unfold parseRaw at hraw
                        exact parseRawLoop_noEmpty decode hdec _ _ _ _ _ _ _ _ hraw
                      simp only [noEmptyTextL_append, noEmptyTextL,
                        textNode_noEmpty decode hdec,
                        parseStartTag_withChildren_noEmpty _ _ _ _ _ hst hR,
                        ih _ _ _ _ _ _ hrec, Bool.and_self]
                · rcases hrec1 : parse decode node.data node.dataAtom false fuel rest2 with
                    e | ⟨kidsC, rest3⟩ <;> simp only [hrec1] at h
                  · exact absurd h (by simp)
                  · simp only [contWith] at h
                    rcases hrec2 : parse decode pd pa root fuel rest3 with e | ⟨kids2, r4⟩ <;>
                      simp only [hrec2] at h
                    · exact absurd h (by simp)
                    · simp only [Except.ok.injEq, Prod.mk.injEq] at h
                      rcases h with ⟨hk, _⟩
                      rw [← hk]
                      have hC : noEmptyTextL kidsC = true := ih _ _ _ _ _ _ hrec1
                      simp only [noEmptyTextL_append, noEmptyTextL,
                        textNode_noEmpty decode hdec,
                        parseStartTag_withChildren_noEmpty _ _ _ _ _ hst hC,
                        ih _ _ _ _ _ _ hrec2, Bool.and_self]
              · simp only [if_true] at h
                simp only [contWith] at h
                rcases hrec : parse decode pd pa root fuel rest2 with e | ⟨kids2, r3⟩ <;>
                  simp only [hrec] at h
                · exact absurd h (by simp)
                · simp only [Except.ok.injEq, Prod.mk.injEq] at h
                  rcases h with ⟨hk, _⟩
                  rw [← hk]
                  simp only [noEmptyTextL_append, noEmptyTextL,
                    textNode_noEmpty decode hdec, hnode, ih _ _ _ _ _ _ hrec,
                    Bool.and_self]

set_option maxHeartbeats 2000000 in
theorem parseA_noEmpty (decode : List Nat → List Nat)
    (hdec : ∀ s : List Nat, s ≠ [] → decode s ≠ []) :
    ∀ fuel pd pa root text,
      noEmptyTextL (parseA decode pd pa root fuel text).1 = true := by
  intro fuel
  induction fuel with
  | zero =>
    intro pd pa root text
    simp [parseA, noEmptyTextL]
  | succ fuel ih =>
    intro pd pa root text
    simp only [parseA]
    rcases hidx : idxByte ltB text with _ | idx <;> simp only [hidx]
    · rcases root with _ | _
      · simp [noEmptyTextL]
      · simpa using textNode_noEmpty decode hdec text
    · rcases hdrop : text.drop idx with _ | ⟨b0, _ | ⟨b1, r2⟩⟩ <;> simp only [hdrop]
      · exact textNode_noEmpty decode hdec _
      · exact textNode_noEmpty decode hdec _
      · by_cases hb1 : b1 = slashB
        · simp only [if_pos hb1]
          rcases hend : parseEndTag (if root = true then none else some (pd, pa))
              (b0 :: b1 :: r2) with e | ⟨ok, rest⟩
          · exact textNode_noEmpty decode hdec _
          · rcases ok with _ | _ <;> exact textNode_noEmpty decode hdec _
        · by_cases hb2 : b1 = bangB
          · simp only [if_neg hb1, if_pos hb2]
            rcases hbang : parseBang r2 with e | ⟨node, rest⟩ <;> simp only [hbang]
            · exact textNode_noEmpty decode hdec _
            · simp only [noEmptyTextL_append, noEmptyTextL,
                textNode_noEmpty decode hdec, parseBang_noEmpty _ _ _ hbang,
                ih, Bool.and_self]
          · simp only [if_neg hb1, if_neg hb2]
            rcases hst : parseStartTag (b0 :: b1 :: r2) with e | ⟨node, sc, rest⟩ <;>
              simp only [hst]
            · exact textNode_noEmpty decode hdec _
            · have hnode : noEmptyText node = true := parseStartTag_noEmpty _ _ _ _ hst
              rcases sc with _ | _
              · simp only [Bool.false_eq_true, if_false]
                rcases hbd : bodyDispatch (categorize node.dataAtom) with _ | esc | _ <;>
                  simp only [hbd]
                · simp only [noEmptyTextL_append, noEmptyTextL,
                    textNode_noEmpty decode hdec, hnode, ih, Bool.and_self]
                · rcases hraw : parseRaw decode node.data node.dataAtom esc rest with
                    e | ⟨rkids, rest2⟩ <;> simp only [hraw]
                  · simp only [noEmptyTextL_append, noEmptyTextL,
                      textNode_noEmpty decode hdec, hnode, Bool.and_self]
                  · have hR : noEmptyTextL rkids = true := by
                      unfold parseRaw at hraw
                      exact parseRawLoop_noEmpty decode hdec _ _ _ _ _ _ _ _ hraw
                    simp only [noEmptyTextL_append, noEmptyTextL,
                      textNode_noEmpty decode hdec,
                      parseStartTag_withChildren_noEmpty _ _ _ _ _ hst hR,
                      ih, Bool.and_self]
                · have hC : noEmptyTextL (parseA decode node.data node.dataAtom false
                      fuel rest).1 = true := ih _ _ _ _
                  rcases hsub : (parseA decode node.data node.dataAtom false fuel rest).2
                      with e | rest2 <;> simp only [hsub]
                  · simp only [noEmptyTextL_append, noEmptyTextL,
                      textNode_noEmpty decode hdec,
                      parseStartTag_withChildren_noEmpty _ _ _ _ _ hst hC,
                      Bool.and_self]
                  · simp only [noEmptyTextL_append, noEmptyTextL,
                      textNode_noEmpty decode hdec,
                      parseStartTag_withChildren_noEmpty _ _ _ _ _ hst hC,
                      ih, Bool.and_self]
              · simp only [if_true]
                simp only [noEmptyTextL_append, noEmptyTextL,
                  textNode_noEmpty decode hdec, hnode, ih, Bool.and_self]

set_option maxHeartbeats 2000000 in
theorem parse_eq_parseA (decode : List Nat → List Nat) :
    ∀ fuel pd pa root text,
      parse decode pd pa root fuel text =
        dropOnErr (parseA decode pd pa root fuel text) := by
  intro fuel
  induction fuel with
  | zero =>
    intro pd pa root text
    simp [parse, parseA, dropOnErr]
  | succ fuel ih =>
    intro pd pa root text
    simp only [parse, parseA, ih]
    rcases hidx : idxByte ltB text with _ | idx <;> simp only [hidx]
    · rcases root with _ | _ <;> simp [dropOnErr]
    · rcases hdrop : text.drop idx with _ | ⟨b0, _ | ⟨b1, r2⟩⟩ <;> simp only [hdrop]
      · simp [dropOnErr]
      · simp [dropOnErr]
      · by_cases hb1 : b1 = slashB
        · simp only [if_pos hb1]
          rcases hend : parseEndTag (if root = true then none else some (pd, pa))
              (b0 :: b1 :: r2) with e | ⟨ok, rest⟩
          · simp [dropOnErr]
          · rcases ok with _ | _ <;> simp [dropOnErr]
        · by_cases hb2 : b1 = bangB
          · simp only [if_neg hb1, if_pos hb2]
            rcases hbang : parseBang r2 with e | ⟨node, rest⟩ <;> simp only [hbang]
            · simp [dropOnErr]
            · rcases hA : parseA decode pd pa root fuel rest with ⟨kids2, res⟩
              rcases res with e | rest2 <;> simp [hA, dropOnErr, contWith]
          · simp only [if_neg hb1, if_neg hb2]
            rcases hst : parseStartTag (b0 :: b1 :: r2) with e | ⟨node, sc, rest⟩ <;>
              simp only [hst]
            · simp [dropOnErr]
            · rcases sc with _ | _
              · simp only [Bool.false_eq_true, if_false]
                rcases hbd : bodyDispatch (categorize node.dataAtom) with _ | esc | _ <;>
                  simp only [hbd]
                · rcases hA : parseA decode pd pa root fuel rest with ⟨kids2, res⟩
                  rcases res with e | rest2 <;> simp [hA, dropOnErr, contWith]
                · rcases hraw : parseRaw decode node.data node.dataAtom esc rest with
                    e | ⟨rkids, rest2⟩ <;> simp only [hraw]
                  · simp [dropOnErr]
                  · rcases hA : parseA decode pd pa root fuel rest2 with ⟨kids2, res⟩
                    rcases res with e | rest3 <;> simp [hA, dropOnErr, contWith]
                · rcases hsub : parseA decode node.data node.dataAtom false fuel rest
                      with ⟨ckids, cres⟩
                  rcases cres with e | rest2
                  · simp [hsub, dropOnErr]
                  · simp only [hsub, dropOnErr]
                    rcases hA : parseA decode pd pa root fuel rest2 with ⟨kids2, res⟩
                    rcases res with e | rest3 <;> simp [hA, dropOnErr, contWith]
              · simp only [if_true]
                rcases hA : parseA decode pd pa root fuel rest with ⟨kids2, res⟩
                rcases res with e | rest2 <;> simp [hA, dropOnErr, contWith]

theorem parseEndTag_none_false (t : List Nat) (b : Bool) (r : List Nat)
    (h : parseEndTag none t = .ok (b, r)) : b = false := by
  unfold parseEndTag at h
  rcases hni : nextIdent (t.drop 2) with e | ⟨s, a, rest⟩ <;> simp only [hni] at h
  · exact absurd h (by simp)
  · split at h
    · split at h <;> simp_all
    · simp only [Except.ok.injEq, Prod.mk.injEq] at h
      exact h.1.symm

theorem arena_len_inv (a : arena) (h : a.len ≤ arenaSize) :
    a.newNode.2.len ≤ arenaSize := by
  rcases a with ⟨b, _ | n⟩
  · simp [arena.newNode, arenaSize]
  · simp only [arena.newNode]
    simp [arenaSize] at h ⊢
    omega

theorem arena_step_lt (a : arena) (h : a.len ≤ arenaSize) :
    arenaAddrIdx a.newNode.1 < arenaAddrIdx a.newNode.2.newNode.1 := by
  rcases a with ⟨b, _ | n⟩
  · show arenaAddrIdx (b + 1, 0) < arenaAddrIdx (b + 1, 1)
    simp [arenaAddrIdx]
  · rcases n with _ | m
    · show arenaAddrIdx (b, arenaSize - 1) < arenaAddrIdx (b + 1, 0)
      simp only [arenaAddrIdx, arenaSize]
      omega
    · show arenaAddrIdx (b, arenaSize - (m + 2)) < arenaAddrIdx (b, arenaSize - (m + 1))
      simp only [arenaAddrIdx, arenaSize] at h ⊢
      simp at h
      omega

theorem arena_mono_aux : ∀ (k : Nat) (a : arena), a.len ≤ arenaSize →
    arenaAddrIdx (a.nthAddr 0) < arenaAddrIdx (a.nthAddr (k + 1)) := by
  intro k
  induction k with
  | zero =>
    intro a h
    simpa [arena.nthAddr] using arena_step_lt a h
  | succ k ih =>
    intro a h
    calc arenaAddrIdx (a.nthAddr 0) < arenaAddrIdx (a.newNode.2.nthAddr 0) := by
          simpa [arena.nthAddr] using arena_step_lt a h
      _ < arenaAddrIdx (a.newNode.2.nthAddr (k + 1)) := ih a.newNode.2 (arena_len_inv a h)
      _ = arenaAddrIdx (a.nthAddr (k + 2)) := by simp [arena.nthAddr]

theorem arena_shift : ∀ (k d : Nat) (a : arena), a.len ≤ arenaSize →
    arenaAddrIdx (a.nthAddr k) < arenaAddrIdx (a.nthAddr (k + d + 1)) := by
  intro k
  induction k with
  | zero =>
    intro d a h
    simpa using arena_mono_aux d a h
  | succ k ih =>
    intro d a h
    have hk : k + 1 + d + 1 = (k + d + 1) + 1 := by omega
    rw [hk]
    show arenaAddrIdx (a.newNode.2.nthAddr k) < arenaAddrIdx (a.newNode.2.nthAddr (k + d + 1))
    exact ih d a.newNode.2 (arena_len_inv a h)

theorem arena_nthAddr_inj (k l : Nat) (hne : k ≠ l) :
    arena.nthAddr arena.fresh k ≠ arena.nthAddr arena.fresh l := by
  have hf : arena.fresh.len ≤ arenaSize := by simp [arena.fresh, arenaSize]
  intro heq
  rcases Nat.lt_or_ge k l with hlt | hge
  · obtain ⟨d, rfl⟩ : ∃ d, l = k + d + 1 := ⟨l - k - 1, by omega⟩
    have hs := arena_shift k d arena.fresh hf
    rw [heq] at hs
    exact lt_irrefl _ hs
  · have hlt : l < k := by omega
    obtain ⟨d, rfl⟩ : ∃ d, k = l + d + 1 := ⟨k - l - 1, by omega⟩
    have hs := arena_shift l d arena.fresh hf
    rw [heq] at hs
    exact lt_irrefl _ hs

/-- The nineteen tag identities that `categorize` singles out; every other
identity falls through to the default `catNormal` case. -/
def specialTags : List (Option (List Nat)) :=
  ["area", "base", "br", "col", "embed", "hr", "img", "input", "link", "meta",
   "param", "source", "track", "wbr", "template", "script", "style",
   "textarea", "title"].map (fun t => some (strBytes t))


/-- C1: the claim states that every truncated input (for example the
two-byte input `<a`, or `<!--` with no `-->` terminator) makes `Parse`
return a fatal error value through its error result.  The code instead hits
a Go runtime slice-bounds panic on those two cited inputs: `nextIdent`
computes `bytes.IndexFunc = -1` and slices `text[:-1]`, and the comment scan
computes `bytes.Index = -1` and slices `p.text[:-1]`.  Only a bare trailing
`<` takes the intended `errors.New` path.  This theorem evaluates the
embedded code at those inputs, exhibiting the divergence. -/
theorem c1_truncation_panics_not_error :
    Parse (fun s => s) (strBytes "<a") = .error .sliceBound ∧
    Parse (fun s => s) (strBytes "<!--hello") = .error .sliceBound ∧
    Parse (fun s => s) (strBytes "<") = .error .eofOpen :=
  ⟨rfl, rfl, rfl⟩

/-- C2: in raw-text mode, when a `<` is followed by `/` and the attempted
close-tag scan does not name-match the current element (`parseEndTag`
returns `false` without error), the mismatch is not fatal: the loop
continues from the byte position before the failed attempt (the failed scan
consumed nothing), with the `<` and the following byte appended to the
literal buffer as-is and scanning resuming after those two bytes. -/
theorem c2_raw_mismatch_backtracks (decode : List Nat → List Nat) (pd : List Nat)
    (pa : Option (List Nat)) (esc : Bool) (fuel : Nat) (buf r2 r : List Nat)
    (hend : parseEndTag (some (pd, pa)) (ltB :: slashB :: r2) = .ok (false, r)) :
    parseRawLoop decode pd pa esc (fuel + 1) buf (ltB :: slashB :: r2) =
      parseRawLoop decode pd pa esc fuel (buf ++ [ltB, slashB]) r2 := by
  simp [parseRawLoop, idxByte, hend]

/-- Witness for C2 at a concrete mismatching close tag inside a `script`
element: scanning `</b>` under parent `script` backtracks and appends `</`. -/
theorem c2_raw_mismatch_backtracks_witness :
    parseRawLoop (fun s => s) (strBytes "script") (some (strBytes "script")) false 8
        (strBytes "a") (strBytes "</b>x</script>") =
      parseRawLoop (fun s => s) (strBytes "script") (some (strBytes "script")) false 7
        (strBytes "a" ++ [ltB, slashB]) (strBytes "b>x</script>") :=
  c2_raw_mismatch_backtracks (fun s => s) (strBytes "script") (some (strBytes "script"))
    false 7 (strBytes "a") (strBytes "b>x</script>") (strBytes ">x</script>") rfl

/-- C3 (counterexample): the claim says every element whose body is still
open at input exhaustion yields the fatal "unclosed element" error naming
the tag.  On `<div>x<` the `div` body is still open at end-of-input, yet the
code reports the truncation error "Unexpected end of file in opening tag"
(from the `len(p.text) < 2` check), which carries no tag name and is not the
unclosed-element error. -/
theorem c3_unclosed_counterexample :
    Parse (fun s => s) (strBytes "<div>x<") = .error .eofOpen ∧
    PErr.eofOpen ≠ PErr.unclosed (strBytes "div") :=
  ⟨rfl, by decide⟩

/-- C3 (amended): when the remaining input contains no further `<` at all,
a tag-mode invocation with `is_root = false` fails with the unclosed-element
error naming the open parent, raw-text mode fails the same way, and the
top-level document alone ends silently with its trailing bytes emitted as a
Text child.  (If input instead ends inside a construct — e.g. a trailing
`<` — a truncation fault is reported rather than the unclosed error.) -/
theorem c3_unclosed_at_exhaustion (decode : List Nat → List Nat) (pd : List Nat)
    (pa : Option (List Nat)) (esc : Bool) (fuel : Nat) (buf text : List Nat)
    (h : idxByte ltB text = none) :
    parse decode pd pa false (fuel + 1) text = .error (.unclosed pd) ∧
    parseRawLoop decode pd pa esc (fuel + 1) buf text = .error (.unclosed pd) ∧
    parse decode pd pa true (fuel + 1) text = .ok (textNode decode text, []) := by
  refine ⟨?_, ?_, ?_⟩ <;> simp [parse, parseRawLoop, h]

/-- Witness for C3 (amended) on the `<`-free remainder `xy` under an open
`b` element. -/
theorem c3_unclosed_at_exhaustion_witness :
    parse (fun s => s) (strBytes "b") (some (strBytes "b")) false 4 (strBytes "xy") =
        .error (.unclosed (strBytes "b")) ∧
    parseRawLoop (fun s => s) (strBytes "b") (some (strBytes "b")) false 4 []
        (strBytes "xy") = .error (.unclosed (strBytes "b")) ∧
    parse (fun s => s) (strBytes "b") (some (strBytes "b")) true 4 (strBytes "xy") =
        .ok (textNode (fun s => s) (strBytes "xy"), []) :=
  c3_unclosed_at_exhaustion (fun s => s) (strBytes "b") (some (strBytes "b")) false 3 []
    (strBytes "xy") rfl

/-- C4: a closing tag terminates the current tag-mode invocation iff its
case-folded identity equals the parent's canonical identity (or, when both
identities are `none`, its case-folded spelling equals the parent's name):
(1) on an identity match followed by `>` the close succeeds; (2) on a
mismatch `parseEndTag` reports no close and no error; (3) in tag mode
(`is_root = false`) that mismatch makes `parse` fail with the
unclosed-element error naming the parent; (4) at the document root every
closing tag is a syntax fault — `parse` never returns success from it. -/
theorem c4_close_tag_matching :
    (∀ pd rest (pa : Option (List Nat)) t s a g rr,
       nextIdent (t.drop 2) = .ok (s, a, rest) → s ≠ [] →
       a = pa → (a = none → s = pd) → skipSpace rest = g :: rr → g = gtB →
       parseEndTag (some (pd, pa)) t = .ok (true, rr)) ∧
    (∀ pd rest (pa : Option (List Nat)) t s a,
       nextIdent (t.drop 2) = .ok (s, a, rest) → s ≠ [] →
       (a ≠ pa ∨ (a = none ∧ s ≠ pd)) →
       parseEndTag (some (pd, pa)) t = .ok (false, rest)) ∧
    (∀ decode pd (pa : Option (List Nat)) fuel idx text b0 r2 rest,
       idxByte ltB text = some idx → text.drop idx = b0 :: slashB :: r2 →
       parseEndTag (some (pd, pa)) (b0 :: slashB :: r2) = .ok (false, rest) →
       parse decode pd pa false (fuel + 1) text = .error (.unclosed pd)) ∧
    (∀ decode pd (pa : Option (List Nat)) fuel idx text b0 r2,
       idxByte ltB text = some idx → text.drop idx = b0 :: slashB :: r2 →
       ∀ kids rest, parse decode pd pa true (fuel + 1) text ≠ .ok (kids, rest)) := by
  refine ⟨?_, ?_, ?_, ?_⟩
  · intro pd rest pa t s a g rr hni hs ha himp hss hg
    unfold parseEndTag
    simp only [hni]
    rw [if_neg hs]
    have hcond : ¬(a ≠ pa ∨ (a = none ∧ s ≠ pd)) := by
      rintro (hc | ⟨h1, h2⟩)
      · exact hc ha
      · exact h2 (himp h1)
    rw [if_neg hcond]
    simp only [hss]
    subst hg
    simp
  · intro pd rest pa t s a hni hs hmis
    unfold parseEndTag
    simp only [hni]
    rw [if_neg hs, if_pos hmis]
  · intro decode pd pa fuel idx text b0 r2 rest hidx hdrop hend
    simp [parse, hidx, hdrop, hend]
  · intro decode pd pa fuel idx text b0 r2 hidx hdrop kids rest hok
    simp only [parse, hidx, hdrop, if_true] at hok
    rcases het : parseEndTag none (b0 :: slashB :: r2) with e | ⟨ok, r⟩ <;>
      simp only [het] at hok
    · exact absurd hok (by simp)
    · have hb := parseEndTag_none_false _ _ _ het
      subst hb
      exact absurd hok (by simp)

/-- Witness for C4: a matching `</div>` closes a `div` parent; `</span>`
does not match it and in tag mode produces the unclosed-`div` error; at the
root, `</a>` never lets `parse` succeed. -/
theorem c4_close_tag_matching_witness :
    parseEndTag (some (strBytes "div", some (strBytes "div"))) (strBytes "</div>") =
        .ok (true, []) ∧
    parseEndTag (some (strBytes "div", some (strBytes "div"))) (strBytes "</span>") =
        .ok (false, strBytes ">") ∧
    parse (fun s => s) (strBytes "div") (some (strBytes "div")) false 4
        (strBytes "x</span>") = .error (.unclosed (strBytes "div")) ∧
    parse (fun s => s) [] none true 4 (strBytes "</a>") ≠ .ok ([], []) := by
  refine ⟨?_, ?_, ?_, ?_⟩
  · exact c4_close_tag_matching.1 (strBytes "div") (strBytes ">")
      (some (strBytes "div")) (strBytes "</div>") (strBytes "div")
      (some (strBytes "div")) gtB [] rfl (by decide) rfl
      (fun h => absurd h (by decide)) rfl rfl
  · exact c4_close_tag_matching.2.1 (strBytes "div") (strBytes ">")
      (some (strBytes "div")) (strBytes "</span>") (strBytes "span")
      (some (strBytes "span")) rfl (by decide) (Or.inl (by decide))
  · exact c4_close_tag_matching.2.2.1 (fun s => s) (strBytes "div")
      (some (strBytes "div")) 3 1 (strBytes "x</span>") ltB (strBytes "span>")
      (strBytes ">") rfl rfl rfl
  · exact c4_close_tag_matching.2.2.2 (fun s => s) [] none 3 0 (strBytes "</a>")
      ltB (strBytes "a>") rfl rfl [] []

/-- C5: an element opened with the self-closing marker (accepted for any
tag), and a non-self-closing element categorized `Void`, get no body at all:
the builder neither recurses nor enters raw-text mode, the element keeps an
empty child list, and the input after the start tag is parsed in the
unchanged parent context (same parent identity, same root flag). -/
theorem c5_selfclosing_void_no_body (decode : List Nat → List Nat) (pd : List Nat)
    (pa : Option (List Nat)) (root : Bool) (fuel idx : Nat) (text r2 rest : List Nat)
    (b0 b1 : Nat) (node : HNode) (sc : Bool)
    (hidx : idxByte ltB text = some idx) (hdrop : text.drop idx = b0 :: b1 :: r2)
    (hb1 : b1 ≠ slashB) (hb2 : b1 ≠ bangB)
    (hst : parseStartTag (b0 :: b1 :: r2) = .ok (node, sc, rest))
    (hcase : sc = true ∨ categorize node.dataAtom = category.catVoid) :
    node.children = [] ∧
    parse decode pd pa root (fuel + 1) text =
      contWith (textNode decode (text.take idx) ++ [node])
        (parse decode pd pa root fuel rest) := by
  constructor
  · obtain ⟨s, a, xs, rfl⟩ := parseStartTag_shape _ _ _ _ hst
    rfl
  · simp only [parse, hidx, hdrop, if_neg hb1, if_neg hb2, hst]
    rcases hcase with hsc | hvoid
    · subst hsc
      simp
    · rcases sc with _ | _
      · simp [hvoid, bodyDispatch]
      · simp

/-- Witness for C5 on the void element `<br>` followed by `x`: parsing
continues in the parent (root) context and `br` has no children. -/
theorem c5_selfclosing_void_no_body_witness :
    (HNode.mk NodeType.element (strBytes "br") (some (strBytes "br")) [] []).children = [] ∧
    parse (fun s => s) [] none true 3 (strBytes "<br>x") =
      contWith (textNode (fun s => s) ((strBytes "<br>x").take 0) ++
          [HNode.mk NodeType.element (strBytes "br") (some (strBytes "br")) [] []])
        (parse (fun s => s) [] none true 2 (strBytes "x")) :=
  c5_selfclosing_void_no_body (fun s => s) [] none true 2 0 (strBytes "<br>x")
    (strBytes "r>x") (strBytes "x") 60 98
    (HNode.mk NodeType.element (strBytes "br") (some (strBytes "br")) [] []) false
    rfl rfl (by decide) (by decide) rfl (Or.inr (by decide))

/-- C6: the reference decoder is applied exactly to tag-mode text chunks and
to the accumulated buffer of an `EscapableRaw` element, and never to a `Raw`
body, a comment payload or a doctype payload.  Each equation holds for every
`decode`: the `script` body, comment payload and doctype payload come out as
the literal input bytes with `decode` nowhere applied (and the `script`
element gets exactly one Text child), while the `textarea` buffer and the
tag-mode chunk `hi` come out under exactly one application of `decode`. -/
theorem c6_decoder_application_sites (decode : List Nat → List Nat) :
    Parse decode (strBytes "<script>a<B>\"c&dquot;</script>") =
      .ok [HNode.mk NodeType.element (strBytes "script") (some (strBytes "script")) []
            [HNode.mk NodeType.text (strBytes "a<B>\"c&dquot;") none [] []]] ∧
    Parse decode (strBytes "<textarea>x&amp;</textarea>") =
      .ok [HNode.mk NodeType.element (strBytes "textarea") (some (strBytes "textarea")) []
            [HNode.mk NodeType.text (decode (strBytes "x&amp;")) none [] []]] ∧
    Parse decode (strBytes "hi<br/>") =
      .ok [HNode.mk NodeType.text (decode (strBytes "hi")) none [] [],
           HNode.mk NodeType.element (strBytes "br") (some (strBytes "br")) [] []] ∧
    Parse decode (strBytes "<!--c&amp;-->") =
      .ok [HNode.mk NodeType.comment (strBytes "c&amp;") none [] []] ∧
    Parse decode (strBytes "<!doctype x&amp;>") =
      .ok [HNode.mk NodeType.doctype (strBytes "x&amp;") none [] []] :=
  ⟨rfl, rfl, rfl, rfl, rfl⟩

/-- C7: after `<!`, a `--` prefix makes the bytes strictly between it and
the first `-->` a verbatim Comment; otherwise an identifier case-folding to
`doctype` makes the bytes after it (whitespace skipped) up to the next `>` a
Doctype; any other introducer makes the bytes up to the next `>` a Comment —
so `<![CDATA[hello world]]>` parses to the single Comment
`[CDATA[hello world]]`. -/
theorem c7_markup_declaration :
    (∀ t idx, ([dashB, dashB] : List Nat).isPrefixOf t = true →
       idxSub [dashB, dashB, gtB] (t.drop 2) = some idx →
       parseBang t = .ok (HNode.mk NodeType.comment ((t.drop 2).take idx) none [] [],
         (t.drop 2).drop (idx + 3))) ∧
    (∀ t s a rest idx, ([dashB, dashB] : List Nat).isPrefixOf t = false → t ≠ [] →
       nextIdent t = .ok (s, a, rest) → s = strBytes "doctype" →
       idxByte gtB (skipSpace rest) = some idx →
       parseBang t = .ok (HNode.mk NodeType.doctype ((skipSpace rest).take idx) none [] [],
         (skipSpace rest).drop (idx + 1))) ∧
    (∀ t s a rest idx, ([dashB, dashB] : List Nat).isPrefixOf t = false → t ≠ [] →
       nextIdent t = .ok (s, a, rest) → s ≠ strBytes "doctype" →
       idxByte gtB t = some idx →
       parseBang t = .ok (HNode.mk NodeType.comment (t.take idx) none [] [],
         t.drop (idx + 1))) ∧
    (∀ decode, Parse decode (strBytes "<![CDATA[hello world]]>") =
       .ok [HNode.mk NodeType.comment (strBytes "[CDATA[hello world]]") none [] []]) := by
  refine ⟨?_, ?_, ?_, fun _ => rfl⟩
  · intro t idx hpre hsub
    have ht : ¬t = [] := by
      intro hc
      rw [hc] at hpre
      simp [List.isPrefixOf] at hpre
    unfold parseBang
    rw [if_neg ht, if_pos hpre]
    simp only [hsub]
  · intro t s a rest idx hpre ht hni hs hidx
    unfold parseBang
    rw [if_neg ht, if_neg (by simp [hpre])]
    simp only [hni]
    rw [if_pos hs]
    simp only [hidx]
  · intro t s a rest idx hpre ht hni hs hidx
    unfold parseBang
    rw [if_neg ht, if_neg (by simp [hpre])]
    simp only [hni]
    rw [if_neg hs]
    simp only [hidx]

/-- Witness for C7 on `--x-->y`, `doctype html>` and `[CDATA[x]]>z`. -/
theorem c7_markup_declaration_witness :
    parseBang (strBytes "--x-->y") =
      .ok (HNode.mk NodeType.comment (strBytes "x") none [] [], strBytes "y") ∧
    parseBang (strBytes "doctype html>") =
      .ok (HNode.mk NodeType.doctype (strBytes "html") none [] [], []) ∧
    parseBang (strBytes "[CDATA[x]]>z") =
      .ok (HNode.mk NodeType.comment (strBytes "[CDATA[x]]") none [] [], strBytes "z") := by
  refine ⟨?_, ?_, ?_⟩
  · exact c7_markup_declaration.1 (strBytes "--x-->y") 1 (by decide) rfl
  · exact c7_markup_declaration.2.1 (strBytes "doctype html>") (strBytes "doctype")
      none (strBytes " html>") 4 (by decide) (by decide) rfl rfl rfl
  · exact c7_markup_declaration.2.2.1 (strBytes "[CDATA[x]]>z") (strBytes "[cdata[x]]")
      none (strBytes ">z") 10 (by decide) (by decide) rfl (by decide) rfl

/-- C8: `categorize` is total and never fails, implementing exactly the
fixed table — the fourteen void tags map to `catVoid`, `template` to
`catTemplate`, `script`/`style` to `catRaw`, `textarea`/`title` to
`catEscapableRaw`, and every other identity (recognized or not, including
the unrecognized identity `none`) to `catNormal` — and the builder's
dispatch handles `catNormal`, `catTemplate` and `catForeign` with the same
recursive-descent sub-parser. -/
theorem c8_categorize_table :
    categorize (some (strBytes "area")) = category.catVoid ∧
    categorize (some (strBytes "base")) = category.catVoid ∧
    categorize (some (strBytes "br")) = category.catVoid ∧
    categorize (some (strBytes "col")) = category.catVoid ∧
    categorize (some (strBytes "embed")) = category.catVoid ∧
    categorize (some (strBytes "hr")) = category.catVoid ∧
    categorize (some (strBytes "img")) = category.catVoid ∧
    categorize (some (strBytes "input")) = category.catVoid ∧
    categorize (some (strBytes "link")) = category.catVoid ∧
    categorize (some (strBytes "meta")) = category.catVoid ∧
    categorize (some (strBytes "param")) = category.catVoid ∧
    categorize (some (strBytes "source")) = category.catVoid ∧
    categorize (some (strBytes "track")) = category.catVoid ∧
    categorize (some (strBytes "wbr")) = category.catVoid ∧
    categorize (some (strBytes "template")) = category.catTemplate ∧
    categorize (some (strBytes "script")) = category.catRaw ∧
    categorize (some (strBytes "style")) = category.catRaw ∧
    categorize (some (strBytes "textarea")) = category.catEscapableRaw ∧
    categorize (some (strBytes "title")) = category.catEscapableRaw ∧
    (∀ a : Option (List Nat), a ∉ specialTags → categorize a = category.catNormal) ∧
    bodyDispatch category.catNormal = BodyMode.recurse ∧
    bodyDispatch category.catTemplate = BodyMode.recurse ∧
    bodyDispatch category.catForeign = BodyMode.recurse := by
  have hgen : ∀ a : Option (List Nat), a ∉ specialTags → categorize a = category.catNormal := by
    intro a ha
    simp only [specialTags, List.map, List.mem_cons, List.not_mem_nil, or_false] at ha
    push_neg at ha
    obtain ⟨h1, h2, h3, h4, h5, h6, h7, h8, h9, h10, h11, h12, h13, h14, h15, h16,
      h17, h18, h19⟩ := ha
    simp [categorize, h1, h2, h3, h4, h5, h6, h7, h8, h9, h10, h11, h12, h13, h14,
      h15, h16, h17, h18, h19]
  refine ⟨?_, ?_, ?_, ?_, ?_, ?_, ?_, ?_, ?_, ?_, ?_, ?_, ?_, ?_, ?_, ?_, ?_, ?_,
    ?_, hgen, rfl, rfl, rfl⟩ <;> decide

/-- Witness for C8's default case at the unrecognized tag `foo`. -/
theorem c8_categorize_table_witness :
    categorize (some (strBytes "foo")) = category.catNormal :=
  c8_categorize_table.2.2.2.2.2.2.2.2.2.2.2.2.2.2.2.2.2.2.2.1
    (some (strBytes "foo")) (by decide)

/-- C9: the arena's `newNode` never hands out the same slot twice —
allocation addresses (block number, slot index) from a freshly constructed
arena are pairwise distinct, so no slot is ever reused and two parses using
separate freshly constructed arenas share no node storage (their slots live
in distinct `make`-created blocks) — and exhausting the current block makes
`newNode` allocate a fresh block of exactly `arenaSize = 64` pre-zeroed
slots and serve the request from its first slot. -/
theorem c9_arena_allocation :
    (∀ k l : Nat, k ≠ l → arena.nthAddr arena.fresh k ≠ arena.nthAddr arena.fresh l) ∧
    (∀ b : Nat, arena.newNode ⟨b, 0⟩ = ((b + 1, 0), ⟨b + 1, arenaSize - 1⟩)) ∧
    arenaSize = 64 ∧
    arena.fresh = ⟨0, 0⟩ :=
  ⟨arena_nthAddr_inj, fun _ => rfl, rfl, rfl⟩

/-- Witness for C9 comparing the first allocation with one from the second
block (allocation 70 crosses the 64-slot block boundary). -/
theorem c9_arena_allocation_witness :
    arena.nthAddr arena.fresh 0 ≠ arena.nthAddr arena.fresh 70 :=
  c9_arena_allocation.1 0 70 (by decide)

/-- C10: provided the reference decoder maps nonempty text to nonempty text
(true of `html.UnescapeString`), no Text node with an empty payload is ever
attached to the tree, whether `Parse` succeeds or fails: `ParseA`/`parseA`
track every `AppendChild` the Go code performs, including children attached
before a fault aborts the parse, and all of them satisfy the invariant
(zero-length chunks between tags produce no child, and a raw or
escapable-raw element whose buffer is empty at its closing tag gets no Text
child); the last conjunct ties the model back to `Parse`, whose successful
result is exactly the attached children. -/
theorem c10_no_empty_text (decode : List Nat → List Nat)
    (hdec : ∀ s : List Nat, s ≠ [] → decode s ≠ []) :
    (∀ text : List Nat, noEmptyTextL (ParseA decode text).1 = true) ∧
    (∀ fuel pd pa root text,
       noEmptyTextL (parseA decode pd pa root fuel text).1 = true) ∧
    (∀ text kids, Parse decode text = .ok kids → kids = (ParseA decode text).1) := by
  refine ⟨fun text => parseA_noEmpty decode hdec _ _ _ _ _,
    parseA_noEmpty decode hdec, ?_⟩
  intro text kids h
  unfold Parse at h
  rw [parse_eq_parseA] at h
  unfold ParseA
  rcases hA : parseA decode [] none true (text.length + 1) text with ⟨kids2, res⟩
  rw [hA] at h
  rcases res with e | rest
  · exact absurd h (by simp [dropOnErr])
  · simp only [dropOnErr, Except.ok.injEq] at h
    simp [h]

/-- Witness for C10: on the faulting input `<div>x<` (the open `div` with
its Text child `x` stays attached when the truncation fault aborts the
parse) every attached Text payload is nonempty; on `<a>foo</a>` the
successful `Parse` result is the attached children. -/
theorem c10_no_empty_text_witness :
    noEmptyTextL (ParseA (fun s => s) (strBytes "<div>x<")).1 = true ∧
    ([HNode.mk NodeType.element (strBytes "a") (some (strBytes "a")) []
        [HNode.mk NodeType.text (strBytes "foo") none [] []]] : List HNode) =
      (ParseA (fun s => s) (strBytes "<a>foo</a>")).1 :=
  ⟨(c10_no_empty_text (fun s => s) (fun _ h => h)).1 (strBytes "<div>x<"),
   (c10_no_empty_text (fun s => s) (fun _ h => h)).2.2 (strBytes "<a>foo</a>") _ rfl⟩
